import Mathlib

/-!
Verification development for the apishield normalization-and-scanning
pipeline (`lib/normalizer.js`, `lib/parsers/har.js`, `lib/parsers/postman.js`,
`lib/parsers/live.js`).  JavaScript objects are embedded as association
lists in insertion order; JavaScript values appearing in schemas and JSON
bodies are embedded as the inductive type `Json`.
-/

set_option maxRecDepth 10000

/-- Shallow embedding of a JavaScript/JSON value (schemas, parsed bodies). -/
inductive Json where
  | str (s : String)
  | num (n : Int)
  | bool (b : Bool)
  | null
  | arr (elems : List Json)
  | obj (entries : List (String × Json))
deriving Repr

/-- First-match association-list lookup: `o[k]` on a JS object. -/
def lookupL {α : Type} (k : String) : List (String × α) → Option α
  | [] => none
  | (k', v) :: rest => if k' = k then some v else lookupL k rest

/-- `o[k] = v` on a JS object: updates the existing key in place, else appends. -/
def upsert {α : Type} (k : String) (v : α) : List (String × α) → List (String × α)
  | [] => [(k, v)]
  | (k', v') :: rest => if k' = k then (k, v) :: rest else (k', v') :: upsert k v rest

/-- Decide whether `needle` is a prefix of `hay` (char lists). -/
def prefixAt (needle hay : List Char) : Bool :=
  needle.isPrefixOf hay

/-- Decide whether `needle` occurs as a contiguous run inside `hay`. -/
def listContains (needle : List Char) : List Char → Bool
  | [] => needle.isEmpty
  | c :: cs => prefixAt needle (c :: cs) || listContains needle cs

/-- JS `s.includes(pat)`: substring containment. -/
def jsIncludes (s pat : String) : Bool :=
  listContains pat.toList s.toList

/-- JS `arr.join(", ")`. -/
def joinComma (l : List String) : String :=
  String.intercalate ", " l

/-- ASCII lowercasing of one character (the inputs in scope are ASCII). -/
def charLower (c : Char) : Char :=
  if c.toNat ≥ 65 ∧ c.toNat ≤ 90 then Char.ofNat (c.toNat + 32) else c

/-- JS `s.toLowerCase()` on ASCII strings. -/
def strLower (s : String) : String :=
  String.mk (s.toList.map charLower)

/-- ASCII uppercasing of one character. -/
def charUpper (c : Char) : Char :=
  if c.toNat ≥ 97 ∧ c.toNat ≤ 122 then Char.ofNat (c.toNat - 32) else c

/-- JS `s.toUpperCase()` on ASCII strings. -/
def strUpper (s : String) : String :=
  String.mk (s.toList.map charUpper)

/-- JS `s.startsWith(pre)`. -/
def startsWithB (s pre : String) : Bool :=
  prefixAt pre.toList s.toList

/-- Characters after the last dot. -/
def afterLastDot (cs : List Char) : List Char :=
  cs.foldl (fun acc c => if c = '.' then [] else acc ++ [c]) []

/-- JS `field.split(".").pop()`: the last dot-separated segment. -/
def lastSeg (field : String) : String :=
  String.mk (afterLastDot field.toList)

/-- One category of the sensitive-field catalogue: substring patterns plus
the regulatory tags the category carries. -/
structure SensitiveCategory where
  name : String
  fields : List String
  regulations : List String
deriving Repr, DecidableEq

/-- The fixed sensitive-field catalogue `SENSITIVE_FIELDS` of
`lib/normalizer.js`, in source (insertion) order. -/
def SENSITIVE_FIELDS : List SensitiveCategory := [
  { name := "credentials",
    fields := ["password", "passwd", "pwd", "secret", "token", "access_token",
      "refresh_token", "auth", "authorization", "bearer", "session",
      "sessionid", "session_id", "login", "userpass", "credentials",
      "api_key", "apikey", "client_secret", "client_id", "app_secret",
      "app_key"],
    regulations := ["SOX", "PCI-DSS"] },
  { name := "encryptionKeys",
    fields := ["encryptionkey", "encryption_key", "privatekey", "private_key",
      "publickey", "public_key", "ssh_key", "rsa_key", "gpg_key", "pem",
      "cert", "certificate", "keystore", "salt", "iv", "crypto_key",
      "signing_key", "keypair"],
    regulations := ["SOX", "FISMA"] },
  { name := "financial",
    fields := ["creditcard", "credit_card", "card_number", "cc_number", "cvv",
      "cvc", "ccv", "expiration", "expiry_date", "billing_address", "iban",
      "swift", "routing_number", "account_number", "account_no",
      "bank_account", "bank_name", "transaction_id", "payment_info",
      "card_info", "upi_id", "wallet_id"],
    regulations := ["PCI-DSS", "SOX", "CCPA"] },
  { name := "pii",
    fields := ["ssn", "social_security", "socialsecurity", "national_id",
      "nid", "passport", "passport_number", "driver_license",
      "license_number", "employee_id", "student_id", "tax_id", "tin",
      "voter_id", "citizen_id"],
    regulations := ["GDPR", "CCPA", "PIPEDA", "LGPD"] },
  { name := "personalInfo",
    fields := ["dob", "date_of_birth", "birthdate", "firstname", "lastname",
      "fullname", "name", "email", "phone", "phonenumber", "mobile",
      "address", "home_address", "zipcode", "zip", "postalcode", "state",
      "country", "city", "gender", "age"],
    regulations := ["GDPR", "CCPA", "PIPEDA", "LGPD"] },
  { name := "health",
    fields := ["fingerprint", "retina", "iris", "dna", "medical_record",
      "health_id", "insurance_number", "insuranceid", "patient_id",
      "diagnosis", "treatment", "blood_type", "disability_status",
      "medication"],
    regulations := ["HIPAA", "GDPR", "CCPA"] },
  { name := "systemTokens",
    fields := ["csrf_token", "xsrf_token", "otp", "2fa", "mfa",
      "recovery_code", "reset_token", "invite_code", "activation_key",
      "magic_link", "verification_code", "reset_code", "webauthn",
      "sso_token", "oidc_token", "fido2_key", "refresh_secret"],
    regulations := ["SOX"] },
  { name := "cloudSecrets",
    fields := ["aws_secret_access_key", "aws_access_key_id", "azure_key",
      "gcp_key", "service_account", "firebase_key", "webhook_secret",
      "slack_webhook", "discord_token", "github_token", "gitlab_token",
      "npm_token", "docker_token", "heroku_api_key", "vercel_token",
      "netlify_token", "digitalocean_key", "ssh_config", "ci_secret",
      "ci_token"],
    regulations := ["SOX", "FISMA"] },
  { name := "network",
    fields := ["ip", "ip_address", "mac", "mac_address", "hostname",
      "device_id", "device_token", "location", "geo", "latitude",
      "longitude", "tracking_id", "session_cookie", "cookie",
      "browser_fingerprint"],
    regulations := ["GDPR", "CCPA", "PIPEDA"] },
  { name := "systemConfig",
    fields := ["debug", "stacktrace", "error_trace", "internal_note",
      "admin_comment", "system_path", "config_path", "logfile", "log_path",
      "env", "environment", "debug_mode", "debug_token", "stack",
      "traceback", "error_message", "error_details", "trace_id",
      "build_config"],
    regulations := ["SOX"] },
  { name := "aiIntegrations",
    fields := ["openai_key", "openai_api_key", "anthropic_key",
      "huggingface_token", "replicate_api_token", "cohere_api_key",
      "stability_key", "palm_api_key", "vertex_ai_key", "azure_openai_key"],
    regulations := ["SOX"] }
]

/-- Flattened pattern array `ALL_SENSITIVE_FIELDS`. -/
def ALL_SENSITIVE_FIELDS : List String :=
  SENSITIVE_FIELDS.flatMap (fun category => category.fields)

/-- `isSensitiveField(fieldName, customFields)`: case-insensitive substring
match of any catalogue or custom pattern inside the field name. -/
def isSensitiveField (fieldName : String) (customFields : List String) : Bool :=
  let allPatterns := ALL_SENSITIVE_FIELDS ++ customFields
  let lowerName := strLower fieldName
  allPatterns.any (fun pattern => jsIncludes lowerName (strLower pattern))

/-- `getRegulatoryContext(fieldName)`: union (insertion-ordered, deduplicated)
of the regulation tags of every category with a matching pattern. -/
def getRegulatoryContext (fieldName : String) : List String :=
  let lowerName := strLower fieldName
  SENSITIVE_FIELDS.foldl
    (fun regulations category =>
      if category.fields.any (fun field => jsIncludes lowerName (strLower field)) then
        category.regulations.foldl
          (fun acc reg => if acc.contains reg then acc else acc ++ [reg])
          regulations
      else regulations)
    []


mutual
/-- The recursive field collector `findSensitiveFields` of `scanSpec`:
walks a schema object, emitting the dotted name of every sensitive key
(in entry order: the key itself first, then its subtree). Non-objects
(arrays, scalars, null) contribute nothing. -/
def findSF (customFields : List String) (pre : String) : Json → List String
  | Json.obj kvs => findSFEntries customFields pre kvs
  | _ => []

/-- Entry-list worker for `findSF`. -/
def findSFEntries (customFields : List String) (pre : String) :
    List (String × Json) → List String
  | [] => []
  | (k, v) :: rest =>
      let fullName := if pre = "" then k else pre ++ "." ++ k
      ((if isSensitiveField k customFields then [fullName] else []) ++
        findSF customFields fullName v) ++ findSFEntries customFields pre rest
end

/-- `res.content["application/json"]` media-type object. -/
structure MediaTypeObj where
  schema : Option Json := none

/-- One response record: either an OpenAPI 3.x `content` entry or a
Swagger-2.0-style direct `schema`. -/
structure ResponseSpec where
  contentJson : Option MediaTypeObj := none
  schema : Option Json := none

/-- One operation of the normalized spec. `security = none` embeds an
absent (undefined) `security` field; `probed`/`probedSensitive` embed the
`_probed`/`_sensitiveFields` fields set by the live-probe adapter. -/
structure Operation where
  security : Option (List String) := none
  responses : List (String × ResponseSpec) := []
  probed : Bool := false
  probedSensitive : List String := []

/-- The normalized spec consumed by `scanSpec`: `paths` in insertion
order, plus the optional top-level `security`. Path-item entries that are
not objects are skipped by the scanner before any rule and are not
modeled. -/
structure NormalizedSpec where
  paths : List (String × List (String × Operation)) := []
  security : Option (List String) := none

/-- The scan configuration (`ignorePaths`, `customSensitiveFields`,
optional `compliance` mode). -/
structure Config where
  ignorePaths : List String := []
  customSensitiveFields : List String := []
  compliance : Option String := none

/-- One finding pushed by `scanSpec`. -/
structure Finding where
  severity : String
  message : String
  detail : String
  fix : String
  regulations : Option (List String) := none
deriving Repr, DecidableEq

/-- One atom of the regex built by `shouldIgnorePath` from a wildcard
ignore pattern: `*` becomes any-sequence, `.` is the regex any-character,
everything else is a literal character. -/
inductive GAtom where
  | star
  | dot
  | lit (c : Char)
deriving Repr, DecidableEq

/-- Compile an ignore pattern to regex atoms, as
`"^" + ignore.replace(/\x2a/g, ".*") + "$"` does (patterns in scope use no
regex metacharacters other than `.`). -/
def globAtoms (pattern : String) : List GAtom :=
  pattern.toList.map (fun c =>
    if c = '*' then GAtom.star else if c = '.' then GAtom.dot else GAtom.lit c)

/-- JS regex line terminators, which `.` does not match. -/
def isLineTerm (c : Char) : Bool :=
  c = '\n' || c = '\r' || c = ' ' || c = ' '

/-- The suffixes reachable from a char list by consuming zero or more
non-line-terminator characters (the strings `.*` can skip over). -/
def starSuffixes : List Char → List (List Char)
  | [] => [[]]
  | c :: cs => (c :: cs) :: (if isLineTerm c then [] else starSuffixes cs)

/-- Anchored regex match of the compiled atoms against a char list
(`*` stands for the `.*` it was rewritten to). -/
def gmatch : List GAtom → List Char → Bool
  | [], s => s.isEmpty
  | GAtom.star :: ps, s => (starSuffixes s).any (fun t => gmatch ps t)
  | GAtom.dot :: ps, s =>
      match s with
      | c :: cs => !isLineTerm c && gmatch ps cs
      | [] => false
  | GAtom.lit a :: ps, s =>
      match s with
      | c :: cs => (a = c) && gmatch ps cs
      | [] => false

/-- `shouldIgnorePath(pathStr, ignorePaths)`: wildcard patterns match via
the anchored regex translation, plain patterns by substring containment. -/
def shouldIgnorePath (pathStr : String) (ignorePaths : List String) : Bool :=
  ignorePaths.any (fun ignore =>
    if ignore.toList.contains '*' then gmatch (globAtoms ignore) pathStr.toList
    else jsIncludes pathStr ignore)

/-- The alternatives of the likely-public regex of `scanSpec` (all literal,
the escaped dots included). -/
def LIKELY_PUBLIC_TERMS : List String :=
  ["login", "register", "signup", "auth", "public", "health", "status",
   "metrics", "healthz", "readiness", "version", "openapi.json",
   "swagger.json"]

/-- The case-insensitive likely-public test of `scanSpec`. -/
def isLikelyPublicB (pathStr : String) : Bool :=
  LIKELY_PUBLIC_TERMS.any (fun term => jsIncludes (strLower pathStr) term)

/-- JS `Array.isArray(x) && x.length > 0` on an optional array field. -/
def nonemptyArr : Option (List String) → Bool
  | some l => l.length > 0
  | none => false

/-- The `hasSecurity` disjunction of `scanSpec`: operation-level security
non-empty, or spec-level global security non-empty. -/
def hasSecurityB (spec : NormalizedSpec) (op : Operation) : Bool :=
  nonemptyArr op.security || nonemptyArr spec.security

/-- `` `${method.toUpperCase()} ${pathStr}` ``. -/
def opIdOf (method pathStr : String) : String :=
  strUpper method ++ " " ++ pathStr

/-- The regulation tag checked for a given compliance mode. -/
def complianceTagOf (mode : String) : String :=
  if mode = "gdpr" then "GDPR"
  else if mode = "ccpa" then "CCPA"
  else if mode = "hipaa" then "HIPAA"
  else if mode = "pci" then "PCI-DSS"
  else ""

/-- The compliance filter of `scanSpec`: keep the fields whose regulation
set (resolved on the last dotted segment) contains the mode's tag. The
source tests `config.compliance === mode && regulations.includes(tag)`
once per field; since the mode is constant over the loop this equals a
single match on the mode. Any other mode value matches no field. -/
def complianceFieldsFor (mode : String) (fields : List String) : List String :=
  if mode = "gdpr" then
    fields.filter (fun f => (getRegulatoryContext (lastSeg f)).contains "GDPR")
  else if mode = "ccpa" then
    fields.filter (fun f => (getRegulatoryContext (lastSeg f)).contains "CCPA")
  else if mode = "hipaa" then
    fields.filter (fun f => (getRegulatoryContext (lastSeg f)).contains "HIPAA")
  else if mode = "pci" then
    fields.filter (fun f => (getRegulatoryContext (lastSeg f)).contains "PCI-DSS")
  else []

/-- The truthiness test `if (config.compliance)`: an empty-string mode is
falsy and behaves like an unset mode. -/
def complianceModeOf (cfg : Config) : Option String :=
  match cfg.compliance with
  | some mode => if mode = "" then none else some mode
  | none => none

/-- The field list a sensitive-data finding reports for one source list of
matched fields: everything in standard mode, the compliance-filtered
sublist in compliance mode. -/
def responseReportedFields (cfg : Config) (fields : List String) : List String :=
  if fields.length > 0 then
    match complianceModeOf cfg with
    | none => fields
    | some mode => complianceFieldsFor mode fields
  else []

/-- The compliance-violation finding pushed by `scanSpec` (the fix text
differs between the schema-derived and the probed branch). -/
def mkComplianceFinding (mode opId : String) (cf : List String)
    (fromSchema : Bool) : Finding :=
  { severity := "high",
    message := strUpper mode ++ " compliance violation",
    detail := opId ++ " exposes " ++ strUpper mode ++ "-regulated data: " ++
      joinComma cf,
    fix := "Remove or mask " ++ strUpper mode ++ "-regulated fields from the " ++
      (if fromSchema then "response schema." else "response."),
    regulations := some [complianceTagOf mode] }

/-- The standard-mode sensitive-data finding pushed by `scanSpec`. -/
def mkSensitiveFinding (opId : String) (fields : List String)
    (fromSchema : Bool) : Finding :=
  { severity := "high",
    message := "Sensitive data exposed in response",
    detail := opId ++ " returns: " ++ joinComma fields,
    fix := "Remove or mask sensitive fields from the " ++
      (if fromSchema then "response schema." else "response."),
    regulations := none }

/-- The sensitive-data branch of `scanSpec` for one matched-field list. -/
def sensitiveFindingsFor (cfg : Config) (opId : String) (fields : List String)
    (fromSchema : Bool) : List Finding :=
  if fields.length > 0 then
    match complianceModeOf cfg with
    | some mode =>
        let cf := complianceFieldsFor mode fields
        if cf.length > 0 then [mkComplianceFinding mode opId cf fromSchema]
        else []
    | none => [mkSensitiveFinding opId fields fromSchema]
  else []

/-- The missing-authentication finding pushed by `scanSpec`. -/
def mkMissingAuthFinding (opId : String) : Finding :=
  { severity := "high",
    message := "Missing authentication",
    detail := "Endpoint " ++ opId ++ " has no security scheme defined.",
    fix := "Add a \x27security\x27 block to the operation or global spec.",
    regulations := none }

/-- The excessive-data-exposure finding pushed by `scanSpec`. -/
def mkExcessiveFinding (opId : String) (fieldCount : Nat) : Finding :=
  { severity := "medium",
    message := "Excessive data exposure",
    detail := opId ++ " returns " ++ toString fieldCount ++ " fields in response",
    fix := "Reduce response fields or implement field filtering (e.g., ?fields=id,name)",
    regulations := none }

/-- Schema selection of `scanSpec`: the OpenAPI 3.x
`content["application/json"].schema` when that media-type entry exists,
else the Swagger-2.0-style `schema` field. -/
def respSchema (res : ResponseSpec) : Option Json :=
  match res.contentJson with
  | some mt => mt.schema
  | none => res.schema

/-- JS property read `j[k]` on an embedded value. -/
def jsGet (k : String) : Json → Option Json
  | Json.obj kvs => lookupL k kvs
  | _ => none

/-- JS truthiness of an embedded value. -/
def jsTruthy : Json → Bool
  | Json.null => false
  | Json.bool b => b
  | Json.num n => n ≠ 0
  | Json.str s => s ≠ ""
  | Json.arr _ => true
  | Json.obj _ => true

/-- `Object.keys(x).length` on an embedded value. -/
def jsKeyCount : Json → Nat
  | Json.obj kvs => kvs.length
  | Json.arr l => l.length
  | Json.str s => s.toList.length
  | _ => 0

/-- The excessive-data check of `scanSpec` (`schema?.properties` truthy and
more than 20 keys). -/
def excessivePart (opId : String) (schema : Json) : List Finding :=
  match jsGet "properties" schema with
  | some props =>
      if jsTruthy props then
        let fieldCount := jsKeyCount props
        if fieldCount > 20 then [mkExcessiveFinding opId fieldCount] else []
      else []
  | none => []

/-- Per-response work of `scanSpec`: 2xx responses with a schema get the
sensitive-data branch then the excessive-data check. -/
def scanResponse (cfg : Config) (opId statusCode : String)
    (res : ResponseSpec) : List Finding :=
  if !startsWithB statusCode "2" then []
  else
    match respSchema res with
    | none => []
    | some schema =>
        sensitiveFindingsFor cfg opId (findSF cfg.customSensitiveFields "" schema) true
          ++ excessivePart opId schema

/-- The probed-endpoint branch of `scanSpec` (`_probed` operations with a
non-empty `_sensitiveFields` list). -/
def probedPart (cfg : Config) (opId : String) (op : Operation) : List Finding :=
  if op.probed then sensitiveFindingsFor cfg opId op.probedSensitive false
  else []

/-- All findings `scanSpec` pushes for one operation, in push order. -/
def scanOp (spec : NormalizedSpec) (cfg : Config) (pathStr method : String)
    (op : Operation) : List Finding :=
  let opId := opIdOf method pathStr
  (if !hasSecurityB spec op && !isLikelyPublicB pathStr then
      [mkMissingAuthFinding opId]
    else [])
    ++ op.responses.flatMap (fun sr => scanResponse cfg opId sr.1 sr.2)
    ++ probedPart cfg opId op

/-- `scanSpec(normalizedSpec, config)` of `lib/normalizer.js`: iterate the
paths in order, skip ignored ones, and accumulate the per-operation
findings. -/
def scanSpec (spec : NormalizedSpec) (cfg : Config) : List Finding :=
  spec.paths.flatMap (fun pp =>
    if shouldIgnorePath pp.1 cfg.ignorePaths then []
    else pp.2.flatMap (fun mo => scanOp spec cfg pp.1 mo.1 mo.2))

/-- A raw spec document before `normalizeSpec`: an optional `swagger`
version marker, paths, optional global `security`. The `info` and
`securityDefinitions` bookkeeping copied by the converter carries no
scanning behavior and is not modeled. -/
structure RawSpec where
  swagger : Option String := none
  paths : List (String × List (String × Operation)) := []
  security : Option (List String) := none

/-- The fixed non-operation path-item keys skipped by the converter. -/
def SKIP_KEYS : List String :=
  ["parameters", "$ref", "summary", "description", "consumes", "produces"]

/-- `spec.swagger && spec.swagger.startsWith("2.")`. -/
def isSwagger2 (spec : RawSpec) : Bool :=
  match spec.swagger with
  | some v => startsWithB v "2."
  | none => false

/-- Path-item conversion of the Swagger-2.0 branch of `normalizeSpec`:
skip the fixed non-operation keys, lowercase the method, and resolve an
undefined operation security to the converted global list. -/
def convertMethods (globalSec : List String)
    (methods : List (String × Operation)) : List (String × Operation) :=
  methods.foldl
    (fun acc mo =>
      if SKIP_KEYS.contains mo.1 then acc
      else upsert (strLower mo.1)
        { mo.2 with security := some (mo.2.security.getD globalSec) } acc)
    []

/-- `normalizeSpec(spec)`: convert Swagger 2.0 documents, pass everything
else through unchanged. -/
def normalizeSpec (spec : RawSpec) : NormalizedSpec :=
  if isSwagger2 spec then
    let globalSec := spec.security.getD []
    { paths := spec.paths.map (fun pm => (pm.1, convertMethods globalSec pm.2)),
      security := some globalSec }
  else
    { paths := spec.paths, security := spec.security }

mutual
/-- `inferSchema(obj)` of `lib/parsers/har.js`: structural schema
inference from an observed JSON body. -/
def inferSchema : Json → Json
  | Json.null => Json.obj [("type", Json.str "null")]
  | Json.str _ => Json.obj [("type", Json.str "string")]
  | Json.num _ => Json.obj [("type", Json.str "number")]
  | Json.bool _ => Json.obj [("type", Json.str "boolean")]
  | Json.arr elems =>
      Json.obj [("type", Json.str "array"),
        ("items", match elems with
          | [] => Json.obj []
          | x :: _ => inferSchema x)]
  | Json.obj kvs =>
      Json.obj [("type", Json.str "object"),
        ("properties", Json.obj (inferSchemaEntries kvs))]

/-- Property-list worker for `inferSchema`. -/
def inferSchemaEntries : List (String × Json) → List (String × Json)
  | [] => []
  | (k, v) :: rest => (k, inferSchema v) :: inferSchemaEntries rest
end

/-- Drop everything up to and including the first `://`. -/
def dropScheme : List Char → List Char
  | ':' :: '/' :: '/' :: rest => rest
  | _ :: rest => dropScheme rest
  | [] => []

/-- Keep from the first `/` on (the authority is skipped). -/
def fromSlash : List Char → List Char
  | '/' :: rest => '/' :: rest
  | _ :: rest => fromSlash rest
  | [] => []

/-- `new URL(url).pathname || "/"` for the well-formed absolute http(s)
URLs in scope (percent-encoding and dot-segment normalization do not
arise there). -/
def urlPathname (url : String) : String :=
  let p := (fromSlash (dropScheme url.toList)).takeWhile
    (fun c => c ≠ '?' && c ≠ '#')
  if p.isEmpty then "/" else String.mk p

/-- A recorded request header of a traffic-capture (HAR) entry. -/
structure HarHeader where
  name : String
  value : String := ""

/-- A recorded request; every field may be absent in a raw document. -/
structure HarRequest where
  url : Option String := none
  method : Option String := none
  headers : Option (List HarHeader) := none

/-- A recorded response body text: either a string that parses as JSON, or
one that `JSON.parse` rejects. -/
inductive BodyText where
  | jsonText (j : Json)
  | rawText (s : String)

/-- JS truthiness of a body text (a string that parses is non-empty). -/
def bodyTruthy : BodyText → Bool
  | BodyText.jsonText _ => true
  | BodyText.rawText s => s ≠ ""

/-- The `content` record of a recorded response. -/
structure HarContent where
  mimeType : Option String := none
  text : Option BodyText := none

/-- A recorded response. -/
structure HarResponse where
  status : Option Nat := none
  content : Option HarContent := none

/-- One traffic-capture entry. -/
structure HarEntry where
  request : Option HarRequest := none
  response : Option HarResponse := none

/-- The `log` section of a traffic capture. -/
structure HarLog where
  entries : Option (List HarEntry) := none

/-- A whole traffic-capture document. -/
structure HarData where
  log : Option HarLog := none

/-- The response-schema inference of `normalizeHAR`: only bodies declared
`application/json` with truthy text are parsed; a parse failure is
swallowed and yields no schema. -/
def harResponseSchema (response : HarResponse) : Option Json :=
  match response.content with
  | some content =>
      if content.mimeType = some "application/json" then
        match content.text with
        | some bt =>
            if bodyTruthy bt then
              match bt with
              | BodyText.jsonText j => some (inferSchema j)
              | BodyText.rawText _ => none
            else none
        | none => none
      else none
  | none => none

/-- The object key `[response.status]` (an absent status stringifies to
"undefined"). -/
def harStatusKey : Option Nat → String
  | some n => toString n
  | none => "undefined"

/-- One loop iteration of `normalizeHAR`. Reading `request.url` or
`request.method` when the field is absent throws a TypeError, embedded as
`Except.error`. The informational `_source` marker is not modeled. -/
def harEntryStep (acc : List (String × List (String × Operation)))
    (entry : HarEntry) :
    Except String (List (String × List (String × Operation))) :=
  match entry.request, entry.response with
  | some request, some response =>
      match request.url with
      | none => Except.error "TypeError: request.url is undefined"
      | some url =>
          if !startsWithB url "http" then Except.ok acc
          else
            let path := urlPathname url
            match request.method with
            | none => Except.error "TypeError: request.method is undefined"
            | some m =>
                let method := strLower m
                let hasAuthHeader :=
                  match request.headers with
                  | some hs => hs.any (fun h =>
                      strLower h.name = "authorization" ||
                      strLower h.name = "x-api-key")
                  | none => false
                let op : Operation :=
                  { security := some (if hasAuthHeader then ["har-auth"] else []),
                    responses :=
                      match harResponseSchema response with
                      | some schema =>
                          [(harStatusKey response.status, { schema := some schema })]
                      | none => [] }
                Except.ok (upsert path (upsert method op ((lookupL path acc).getD [])) acc)
  | _, _ => Except.ok acc

/-- Entry fold of `normalizeHAR`, aborting at the first thrown error. -/
def harEntriesFold : List HarEntry →
    List (String × List (String × Operation)) →
    Except String (List (String × List (String × Operation)))
  | [], acc => Except.ok acc
  | e :: rest, acc =>
      match harEntryStep acc e with
      | Except.error msg => Except.error msg
      | Except.ok acc2 => harEntriesFold rest acc2

/-- `normalizeHAR(harData)` of `lib/parsers/har.js`. The produced spec has
no top-level `security` field. -/
def normalizeHAR (harData : HarData) : Except String NormalizedSpec :=
  let entries :=
    match harData.log with
    | some log => log.entries.getD []
    | none => []
  (harEntriesFold entries []).map
    (fun paths => { paths := paths, security := none })

/-- A collection-export request URL: either a raw string or a structured
`{raw}` object (an absent or empty `raw` behaves like the empty string). -/
inductive PmUrl where
  | strUrl (s : String)
  | objUrl (raw : String)

/-- A collection-export request header. -/
structure PostmanHeader where
  key : String := ""
  value : String := ""

/-- A collection-export request record. `auth` embeds the truthiness of
the per-request auth block. -/
structure PostmanRequest where
  method : Option String := none
  url : Option PmUrl := none
  auth : Bool := false
  header : Option (List PostmanHeader) := none

/-- One node of the collection tree: a present (even empty) `item` list
makes it a folder, else a present `request` makes it one operation. -/
inductive PostmanItem where
  | node (subitems : Option (List PostmanItem)) (request : Option PostmanRequest)

/-- A whole collection export. -/
structure PostmanCollection where
  item : Option (List PostmanItem) := none

/-- The `rawUrl` extraction of `normalizePostman`. -/
def pmRawUrl (request : PostmanRequest) : String :=
  match request.url with
  | some (PmUrl.strUrl s) => s
  | some (PmUrl.objUrl raw) => raw
  | none => ""

/-- The path extraction of `normalizePostman`: relative URLs are given a
placeholder authority first. The catch-fallback for URLs the constructor
rejects is not modeled (the constructor accepts the inputs in scope). -/
def pmPath (rawUrl : String) : String :=
  urlPathname (if startsWithB rawUrl "http" then rawUrl
    else "http://localhost" ++ rawUrl)

/-- The structural auth detection of `normalizePostman`: a truthy auth
block, or a header whose key is exactly `Authorization` or `X-API-Key`
(case-sensitive comparison in the source). -/
def pmHasAuth (request : PostmanRequest) : Bool :=
  request.auth ||
    (match request.header with
     | some hs => hs.any (fun h => h.key = "Authorization" || h.key = "X-API-Key")
     | none => false)

mutual
/-- `processItems` of `normalizePostman`, threading the accumulated paths
in tree order. -/
def pmItems (acc : List (String × List (String × Operation))) :
    List PostmanItem → List (String × List (String × Operation))
  | [] => acc
  | i :: rest => pmItems (pmItem acc i) rest

/-- One item: folders recurse, request items yield one operation with
empty responses. -/
def pmItem (acc : List (String × List (String × Operation))) :
    PostmanItem → List (String × List (String × Operation))
  | PostmanItem.node subitems request =>
      match subitems with
      | some children => pmItems acc children
      | none =>
          match request with
          | some req =>
              let method := strLower (req.method.getD "GET")
              let path := pmPath (pmRawUrl req)
              let op : Operation :=
                { security := some (if pmHasAuth req then ["postman-auth"] else []),
                  responses := [] }
              upsert path (upsert method op ((lookupL path acc).getD [])) acc
          | none => acc
end

/-- `normalizePostman(collection)`: the produced spec carries an explicit
empty global `security` list. -/
def normalizePostman (collection : PostmanCollection) : NormalizedSpec :=
  { paths :=
      match collection.item with
      | some items => pmItems [] items
      | none => [],
    security := some [] }

/-- One probe result consumed by `normalizeProbedResults`. -/
structure ProbeResult where
  path : String
  status : Nat
  hasJsonBody : Bool := false
  sensitiveFields : List String := []
  authDetected : Bool := false

/-- JS `field.split(".")`. -/
def splitDotsAux : List Char → List (List Char)
  | [] => [[]]
  | c :: cs =>
      let r := splitDotsAux cs
      if c = '.' then [] :: r
      else
        match r with
        | h :: t => (c :: h) :: t
        | [] => [[c]]

/-- JS `field.split(".")` on a string. -/
def splitDots (s : String) : List String :=
  (splitDotsAux s.toList).map String.mk

/-- Replace the `properties` entry of a schema node. -/
def setPropEntry (node : Json) (sub : List (String × Json)) : Json :=
  match node with
  | Json.obj kvs => Json.obj (upsert "properties" (Json.obj sub) kvs)
  | _ => node

/-- The nested dotted-path insertion loop of `normalizeProbedResults`.
Descending through a node created earlier as a `{type: "string"}` leaf
finds no `properties` object and throws, embedded as `Except.error`. -/
def insertParts : List (String × Json) → List String →
    Except String (List (String × Json))
  | props, [] => Except.ok props
  | props, [last] =>
      Except.ok (upsert last (Json.obj [("type", Json.str "string")]) props)
  | props, p :: q :: rest =>
      let node := (lookupL p props).getD (Json.obj [("properties", Json.obj [])])
      match jsGet "properties" node with
      | some (Json.obj sub) =>
          match insertParts sub (q :: rest) with
          | Except.ok sub2 => Except.ok (upsert p (setPropEntry node sub2) props)
          | Except.error msg => Except.error msg
      | _ => Except.error "TypeError: intermediate schema node has no properties"

/-- Fold of the per-field schema insertions. -/
def probeFieldsFold : List String → List (String × Json) →
    Except String (List (String × Json))
  | [], props => Except.ok props
  | f :: rest, props =>
      match insertParts props (splitDots f) with
      | Except.ok props2 => probeFieldsFold rest props2
      | Except.error msg => Except.error msg

/-- The synthetic schema of `normalizeProbedResults`: reconstructed from
the dotted field paths when a JSON body with sensitive fields was seen. -/
def probeSchemaFor (result : ProbeResult) : Except String (Option Json) :=
  if result.hasJsonBody && result.sensitiveFields.length > 0 then
    match probeFieldsFold result.sensitiveFields [] with
    | Except.ok props => Except.ok (some (Json.obj [("properties", Json.obj props)]))
    | Except.error msg => Except.error msg
  else Except.ok none

/-- One loop iteration of `normalizeProbedResults` (2xx results only). -/
def probeStep (acc : List (String × List (String × Operation)))
    (result : ProbeResult) :
    Except String (List (String × List (String × Operation))) :=
  if 200 ≤ result.status ∧ result.status < 300 then
    match probeSchemaFor result with
    | Except.error msg => Except.error msg
    | Except.ok schemaOpt =>
        let op : Operation :=
          { security := some (if result.authDetected then ["probed-auth"] else []),
            responses :=
              match schemaOpt with
              | some schema => [(toString result.status, { schema := some schema })]
              | none => [],
            probed := true,
            probedSensitive := result.sensitiveFields }
        Except.ok (upsert result.path (upsert "get" op ((lookupL result.path acc).getD [])) acc)
  else Except.ok acc

/-- Result fold of `normalizeProbedResults`. -/
def probeResultsFold : List ProbeResult →
    List (String × List (String × Operation)) →
    Except String (List (String × List (String × Operation)))
  | [], acc => Except.ok acc
  | r :: rest, acc =>
      match probeStep acc r with
      | Except.error msg => Except.error msg
      | Except.ok acc2 => probeResultsFold rest acc2

/-- `normalizeProbedResults(probedData)` of `lib/parsers/live.js`. The
produced spec has no top-level `security` field. -/
def normalizeProbedResults (probedData : List ProbeResult) :
    Except String NormalizedSpec :=
  (probeResultsFold probedData []).map
    (fun paths => { paths := paths, security := none })

/-- Message test for missing-authentication findings. -/
def isMissingAuthMsg (f : Finding) : Bool :=
  f.message = "Missing authentication"

/-- Message test for excessive-data-exposure findings. -/
def isExcessiveMsg (f : Finding) : Bool :=
  f.message = "Excessive data exposure"

/-- The missing-authentication findings of a scan, in emission order. -/
def missingAuthScan (spec : NormalizedSpec) (cfg : Config) : List Finding :=
  (scanSpec spec cfg).filter isMissingAuthMsg

/-- Standalone statement of the missing-authentication rule the code
implements: one finding per non-ignored, non-likely-public operation for
which neither the operation security nor the global security is a
non-empty list. -/
def missingAuthRule (spec : NormalizedSpec) (cfg : Config) : List Finding :=
  spec.paths.flatMap (fun pp =>
    if shouldIgnorePath pp.1 cfg.ignorePaths then []
    else pp.2.flatMap (fun mo =>
      if !hasSecurityB spec mo.2 && !isLikelyPublicB pp.1 then
        [mkMissingAuthFinding (opIdOf mo.1 pp.1)]
      else []))

/-- The excessive-data-exposure findings of a scan, in emission order. -/
def excessiveScan (spec : NormalizedSpec) (cfg : Config) : List Finding :=
  (scanSpec spec cfg).filter isExcessiveMsg

/-- Standalone statement of the excessive-data rule: one check per 2xx
response with a schema of a non-ignored operation; depends on the
configuration only through the ignore patterns. -/
def excessiveRule (spec : NormalizedSpec) (ignoreList : List String) : List Finding :=
  spec.paths.flatMap (fun pp =>
    if shouldIgnorePath pp.1 ignoreList then []
    else pp.2.flatMap (fun mo =>
      mo.2.responses.flatMap (fun sr =>
        if startsWithB sr.1 "2" then
          match respSchema sr.2 with
          | some schema => excessivePart (opIdOf mo.1 pp.1) schema
          | none => []
        else [])))

/-- All fields listed across the sensitive-data findings of a scan
(schema-derived and probed), in emission order: `scanSpec` builds each
such finding's detail from exactly one chunk of this list. -/
def scanReportedFields (spec : NormalizedSpec) (cfg : Config) : List String :=
  spec.paths.flatMap (fun pp =>
    if shouldIgnorePath pp.1 cfg.ignorePaths then []
    else pp.2.flatMap (fun mo =>
      mo.2.responses.flatMap (fun sr =>
        if startsWithB sr.1 "2" then
          match respSchema sr.2 with
          | some schema =>
              responseReportedFields cfg (findSF cfg.customSensitiveFields "" schema)
          | none => []
        else [])
      ++ (if mo.2.probed then responseReportedFields cfg mo.2.probedSensitive else [])))

theorem filter_flatMap_eq {α β : Type} (p : β → Bool) (f : α → List β)
    (l : List α) :
    (l.flatMap f).filter p = l.flatMap (fun a => (f a).filter p) := by
  induction l with
  | nil => rfl
  | cons a t ih => simp [List.flatMap_cons, List.filter_append, ih]

theorem complianceFieldsFor_mode_of_ne_nil {mode : String} {fields : List String}
    (h : complianceFieldsFor mode fields ≠ []) :
    mode = "gdpr" ∨ mode = "ccpa" ∨ mode = "hipaa" ∨ mode = "pci" := by
  unfold complianceFieldsFor at h
  split_ifs at h with h1 h2 h3 h4
  · exact Or.inl h1
  · exact Or.inr (Or.inl h2)
  · exact Or.inr (Or.inr (Or.inl h3))
  · exact Or.inr (Or.inr (Or.inr h4))
  · exact absurd rfl h

theorem sensitiveFindingsFor_cases (cfg : Config) (opId : String)
    (fields : List String) (b : Bool) :
    sensitiveFindingsFor cfg opId fields b = [] ∨
    (complianceModeOf cfg = none ∧ fields ≠ [] ∧
      sensitiveFindingsFor cfg opId fields b = [mkSensitiveFinding opId fields b]) ∨
    (∃ m, complianceModeOf cfg = some m ∧
      (m = "gdpr" ∨ m = "ccpa" ∨ m = "hipaa" ∨ m = "pci") ∧
      complianceFieldsFor m fields ≠ [] ∧
      sensitiveFindingsFor cfg opId fields b =
        [mkComplianceFinding m opId (complianceFieldsFor m fields) b]) := by
  unfold sensitiveFindingsFor
  by_cases hl : fields.length > 0
  · cases hm : complianceModeOf cfg with
    | none =>
        refine Or.inr (Or.inl ⟨rfl, ?_, ?_⟩)
        · intro hnil; simp [hnil] at hl
        · simp [hl]
    | some m =>
        by_cases hc : (complianceFieldsFor m fields).length > 0
        · refine Or.inr (Or.inr ⟨m, rfl, ?_, ?_, ?_⟩)
          · exact @complianceFieldsFor_mode_of_ne_nil m fields
              (fun hnil => by simp [hnil] at hc)
          · intro hnil; simp [hnil] at hc
          · simp [hl, hc]
        · left; simp [hl, hc]
  · left; simp [hl]

theorem filter_singleton_of_false {α : Type} {p : α → Bool} {x : α}
    (h : p x = false) : List.filter p [x] = [] := by
  simp [List.filter, h]

theorem filter_singleton_of_true {α : Type} {p : α → Bool} {x : α}
    (h : p x = true) : List.filter p [x] = [x] := by
  simp [List.filter, h]

theorem sens_filter_missingAuth (cfg : Config) (opId : String)
    (fields : List String) (b : Bool) :
    (sensitiveFindingsFor cfg opId fields b).filter isMissingAuthMsg = [] := by
  rcases sensitiveFindingsFor_cases cfg opId fields b with h | ⟨_, _, h⟩ | ⟨m, _, hm4, _, h⟩
  · simp [h]
  · rw [h]; exact filter_singleton_of_false rfl
  · rw [h]
    rcases hm4 with rfl | rfl | rfl | rfl <;>
      exact filter_singleton_of_false rfl

theorem sens_filter_excessive (cfg : Config) (opId : String)
    (fields : List String) (b : Bool) :
    (sensitiveFindingsFor cfg opId fields b).filter isExcessiveMsg = [] := by
  rcases sensitiveFindingsFor_cases cfg opId fields b with h | ⟨_, _, h⟩ | ⟨m, _, hm4, _, h⟩
  · simp [h]
  · rw [h]; exact filter_singleton_of_false rfl
  · rw [h]
    rcases hm4 with rfl | rfl | rfl | rfl <;>
      exact filter_singleton_of_false rfl

theorem excessivePart_cases (opId : String) (schema : Json) :
    excessivePart opId schema = [] ∨
    ∃ n, n > 20 ∧ excessivePart opId schema = [mkExcessiveFinding opId n] := by
  unfold excessivePart
  cases jsGet "properties" schema with
  | none => exact Or.inl rfl
  | some props =>
      by_cases ht : jsTruthy props
      · by_cases hn : jsKeyCount props > 20
        · exact Or.inr ⟨jsKeyCount props, hn, by simp [ht, hn]⟩
        · exact Or.inl (by simp [ht, hn])
      · exact Or.inl (by simp [ht])

theorem excessive_filter_missingAuth (opId : String) (schema : Json) :
    (excessivePart opId schema).filter isMissingAuthMsg = [] := by
  rcases excessivePart_cases opId schema with h | ⟨n, _, h⟩
  · simp [h]
  · rw [h]; exact filter_singleton_of_false rfl

theorem excessive_filter_self (opId : String) (schema : Json) :
    (excessivePart opId schema).filter isExcessiveMsg = excessivePart opId schema := by
  rcases excessivePart_cases opId schema with h | ⟨n, _, h⟩
  · simp [h]
  · rw [h]; exact filter_singleton_of_true rfl

theorem scanResponse_filter_missingAuth (cfg : Config) (opId st : String)
    (res : ResponseSpec) :
    (scanResponse cfg opId st res).filter isMissingAuthMsg = [] := by
  unfold scanResponse
  by_cases h2 : startsWithB st "2"
  · cases hs : respSchema res with
    | none => simp [h2, hs]
    | some schema =>
        simp only [h2, Bool.not_true, Bool.false_eq_true, if_false, hs,
          List.filter_append, sens_filter_missingAuth,
          excessive_filter_missingAuth, List.append_nil]
  · simp [h2]

theorem scanResponse_filter_excessive (cfg : Config) (opId st : String)
    (res : ResponseSpec) :
    (scanResponse cfg opId st res).filter isExcessiveMsg =
      (if startsWithB st "2" then
        match respSchema res with
        | some schema => excessivePart opId schema
        | none => []
      else []) := by
  unfold scanResponse
  by_cases h2 : startsWithB st "2"
  · cases hs : respSchema res with
    | none => simp [h2, hs]
    | some schema =>
        simp only [h2, Bool.not_true, Bool.false_eq_true, if_false, if_true, hs,
          List.filter_append, sens_filter_excessive, excessive_filter_self,
          List.nil_append]
  · simp [h2]

theorem probedPart_filter_missingAuth (cfg : Config) (opId : String)
    (op : Operation) :
    (probedPart cfg opId op).filter isMissingAuthMsg = [] := by
  unfold probedPart
  by_cases hp : op.probed
  · simp only [hp, if_true, sens_filter_missingAuth]
  · simp [hp]

theorem probedPart_filter_excessive (cfg : Config) (opId : String)
    (op : Operation) :
    (probedPart cfg opId op).filter isExcessiveMsg = [] := by
  unfold probedPart
  by_cases hp : op.probed
  · simp only [hp, if_true, sens_filter_excessive]
  · simp [hp]

theorem flatMap_nil_const {α β : Type} (l : List α) :
    (l.flatMap fun _ => ([] : List β)) = [] := by
  induction l <;> simp [*]

theorem flatMap_congrF {α β : Type} {f g : α → List β} (l : List α)
    (h : ∀ a, f a = g a) : l.flatMap f = l.flatMap g := by
  induction l with
  | nil => rfl
  | cons a t ih => simp [List.flatMap_cons, h a, ih]

theorem scanOp_filter_missingAuth (spec : NormalizedSpec) (cfg : Config)
    (p m : String) (op : Operation) :
    (scanOp spec cfg p m op).filter isMissingAuthMsg =
      (if !hasSecurityB spec op && !isLikelyPublicB p then
        [mkMissingAuthFinding (opIdOf m p)]
      else []) := by
  unfold scanOp
  by_cases hc : (!hasSecurityB spec op && !isLikelyPublicB p) = true
  · simp only [hc, if_true, List.filter_append, filter_flatMap_eq,
      scanResponse_filter_missingAuth, probedPart_filter_missingAuth,
      flatMap_nil_const, List.append_nil]
    exact filter_singleton_of_true rfl
  · have hc' : (!hasSecurityB spec op && !isLikelyPublicB p) = false :=
      Bool.eq_false_iff.mpr (fun h => hc h)
    simp only [hc', Bool.false_eq_true, if_false, List.filter_append,
      filter_flatMap_eq, scanResponse_filter_missingAuth,
      probedPart_filter_missingAuth, flatMap_nil_const, List.append_nil,
      List.filter_nil]

theorem scanOp_filter_excessive (spec : NormalizedSpec) (cfg : Config)
    (p m : String) (op : Operation) :
    (scanOp spec cfg p m op).filter isExcessiveMsg =
      op.responses.flatMap (fun sr =>
        if startsWithB sr.1 "2" then
          match respSchema sr.2 with
          | some schema => excessivePart (opIdOf m p) schema
          | none => []
        else []) := by
  unfold scanOp
  have hauth : (if !hasSecurityB spec op && !isLikelyPublicB p then
      [mkMissingAuthFinding (opIdOf m p)] else []).filter isExcessiveMsg = [] := by
    by_cases hc : (!hasSecurityB spec op && !isLikelyPublicB p) = true
    · simp only [hc, if_true]; exact filter_singleton_of_false rfl
    · have hc' : (!hasSecurityB spec op && !isLikelyPublicB p) = false :=
        Bool.eq_false_iff.mpr (fun h => hc h)
      simp [hc']
  simp only [List.filter_append, hauth, List.nil_append, filter_flatMap_eq,
    scanResponse_filter_excessive, probedPart_filter_excessive,
    List.append_nil]

theorem missingAuth_characterize (spec : NormalizedSpec) (cfg : Config) :
    missingAuthScan spec cfg = missingAuthRule spec cfg := by
  unfold missingAuthScan scanSpec missingAuthRule
  rw [filter_flatMap_eq]
  refine flatMap_congrF spec.paths (fun pp => ?_)
  by_cases hig : shouldIgnorePath pp.1 cfg.ignorePaths = true
  · simp [hig]
  · have hig' : shouldIgnorePath pp.1 cfg.ignorePaths = false :=
      Bool.eq_false_iff.mpr (fun h => hig h)
    simp only [hig', Bool.false_eq_true, if_false]
    rw [filter_flatMap_eq]
    exact flatMap_congrF pp.2 (fun mo => scanOp_filter_missingAuth spec cfg pp.1 mo.1 mo.2)

theorem excessive_characterize (spec : NormalizedSpec) (cfg : Config) :
    excessiveScan spec cfg = excessiveRule spec cfg.ignorePaths := by
  unfold excessiveScan scanSpec excessiveRule
  rw [filter_flatMap_eq]
  refine flatMap_congrF spec.paths (fun pp => ?_)
  by_cases hig : shouldIgnorePath pp.1 cfg.ignorePaths = true
  · simp [hig]
  · have hig' : shouldIgnorePath pp.1 cfg.ignorePaths = false :=
      Bool.eq_false_iff.mpr (fun h => hig h)
    simp only [hig', Bool.false_eq_true, if_false]
    rw [filter_flatMap_eq]
    exact flatMap_congrF pp.2 (fun mo => scanOp_filter_excessive spec cfg pp.1 mo.1 mo.2)

theorem responseReportedFields_gdpr_mem {cfg : Config} {fields : List String}
    {f : String}
    (h : f ∈ responseReportedFields { cfg with compliance := some "gdpr" } fields) :
    f ∈ fields ∧ "GDPR" ∈ getRegulatoryContext (lastSeg f) := by
  unfold responseReportedFields at h
  by_cases hl : fields.length > 0
  · have hmode : complianceModeOf { cfg with compliance := some "gdpr" } =
        some "gdpr" := rfl
    rw [hmode] at h
    simp only [hl, if_true] at h
    unfold complianceFieldsFor at h
    simp only [if_true, reduceIte] at h
    rw [List.mem_filter] at h
    refine ⟨h.1, ?_⟩
    have := h.2
    simpa using this
  · simp [hl] at h

theorem responseReportedFields_none_mem {cfg : Config} {fields : List String}
    {f : String} (h : f ∈ fields) :
    f ∈ responseReportedFields { cfg with compliance := none } fields := by
  unfold responseReportedFields
  have hl : fields.length > 0 := List.length_pos.mpr (List.ne_nil_of_mem h)
  have hmode : complianceModeOf { cfg with compliance := none } = none := rfl
  rw [hmode]
  simpa [hl] using h

theorem scanReportedFields_gdpr_mem (spec : NormalizedSpec) (cfg : Config)
    (f : String)
    (hf : f ∈ scanReportedFields spec { cfg with compliance := some "gdpr" }) :
    f ∈ scanReportedFields spec { cfg with compliance := none } ∧
      "GDPR" ∈ getRegulatoryContext (lastSeg f) := by
  unfold scanReportedFields at hf ⊢
  rw [List.mem_flatMap] at hf
  obtain ⟨pp, hpp, hin⟩ := hf
  by_cases hig : shouldIgnorePath pp.1 cfg.ignorePaths = true
  · rw [show shouldIgnorePath pp.1
        ({ cfg with compliance := some "gdpr" } : Config).ignorePaths =
        shouldIgnorePath pp.1 cfg.ignorePaths from rfl, hig] at hin
    simp at hin
  · have hig' : shouldIgnorePath pp.1 cfg.ignorePaths = false :=
      Bool.eq_false_iff.mpr (fun h => hig h)
    rw [show shouldIgnorePath pp.1
        ({ cfg with compliance := some "gdpr" } : Config).ignorePaths =
        shouldIgnorePath pp.1 cfg.ignorePaths from rfl, hig'] at hin
    simp only [Bool.false_eq_true, if_false] at hin
    rw [List.mem_flatMap] at hin
    obtain ⟨mo, hmo, hin2⟩ := hin
    rw [List.mem_append] at hin2
    have build : f ∈ (if shouldIgnorePath pp.1 cfg.ignorePaths = true then []
        else mo.2.responses.flatMap (fun sr =>
          if startsWithB sr.1 "2" then
            match respSchema sr.2 with
            | some schema =>
                responseReportedFields { cfg with compliance := none }
                  (findSF cfg.customSensitiveFields "" schema)
            | none => []
          else [])
        ++ (if mo.2.probed then
              responseReportedFields { cfg with compliance := none }
                mo.2.probedSensitive
            else [])) ∧ "GDPR" ∈ getRegulatoryContext (lastSeg f) := by
      rcases hin2 with hresp | hprob
      · rw [List.mem_flatMap] at hresp
        obtain ⟨sr, hsr, hin3⟩ := hresp
        by_cases h2 : startsWithB sr.1 "2" = true
        · rw [if_pos h2] at hin3
          cases hs : respSchema sr.2 with
          | none => rw [hs] at hin3; simp at hin3
          | some schema =>
              rw [hs] at hin3
              have hm := responseReportedFields_gdpr_mem hin3
              refine ⟨?_, hm.2⟩
              rw [if_neg (by simp [hig'])]
              rw [List.mem_append]
              left
              rw [List.mem_flatMap]
              exact ⟨sr, hsr, by
                rw [if_pos h2, hs]
                exact responseReportedFields_none_mem hm.1⟩
        · rw [if_neg h2] at hin3; simp at hin3
      · by_cases hp : mo.2.probed = true
        · rw [if_pos hp] at hprob
          have hm := responseReportedFields_gdpr_mem hprob
          refine ⟨?_, hm.2⟩
          rw [if_neg (by simp [hig'])]
          rw [List.mem_append]
          right
          rw [if_pos hp]
          exact responseReportedFields_none_mem hm.1
        · rw [if_neg hp] at hprob; simp at hprob
    refine ⟨?_, build.2⟩
    rw [List.mem_flatMap]
    refine ⟨pp, hpp, ?_⟩
    show f ∈ (if shouldIgnorePath pp.1 cfg.ignorePaths = true then [] else _)
    rw [if_neg (by simp [hig'])]
    rw [List.mem_flatMap]
    refine ⟨mo, hmo, ?_⟩
    have := build.1
    rw [if_neg (by simp [hig'])] at this
    exact this

theorem sens_regulations {cfg : Config} {opId : String} {fields : List String}
    {b : Bool} {f : Finding} (hf : f ∈ sensitiveFindingsFor cfg opId fields b) :
    f.regulations = none ∨
    ∃ m, complianceModeOf cfg = some m ∧ f.regulations = some [complianceTagOf m] := by
  rcases sensitiveFindingsFor_cases cfg opId fields b with h | ⟨_, _, h⟩ | ⟨m, hm, _, _, h⟩
  · rw [h] at hf; simp at hf
  · rw [h] at hf
    rw [List.mem_singleton] at hf
    subst hf
    exact Or.inl rfl
  · rw [h] at hf
    rw [List.mem_singleton] at hf
    subst hf
    exact Or.inr ⟨m, hm, rfl⟩

theorem excessive_regulations {opId : String} {schema : Json} {f : Finding}
    (hf : f ∈ excessivePart opId schema) : f.regulations = none := by
  rcases excessivePart_cases opId schema with h | ⟨n, _, h⟩
  · rw [h] at hf; simp at hf
  · rw [h] at hf
    rw [List.mem_singleton] at hf
    subst hf
    rfl

theorem scanResponse_regulations {cfg : Config} {opId st : String}
    {res : ResponseSpec} {f : Finding} (hf : f ∈ scanResponse cfg opId st res) :
    f.regulations = none ∨
    ∃ m, complianceModeOf cfg = some m ∧ f.regulations = some [complianceTagOf m] := by
  unfold scanResponse at hf
  by_cases h2 : startsWithB st "2" = true
  · rw [h2] at hf
    simp only [Bool.not_true, Bool.false_eq_true, if_false] at hf
    cases hs : respSchema res with
    | none => rw [hs] at hf; simp at hf
    | some schema =>
        rw [hs] at hf
        rw [List.mem_append] at hf
        rcases hf with hf | hf
        · exact sens_regulations hf
        · exact Or.inl (excessive_regulations hf)
  · have h2' : startsWithB st "2" = false := Bool.eq_false_iff.mpr (fun h => h2 h)
    rw [h2'] at hf
    simp at hf

theorem scanSpec_regulations (spec : NormalizedSpec) (cfg : Config)
    (f : Finding) (hf : f ∈ scanSpec spec cfg) :
    f.regulations = none ∨
    ∃ m, complianceModeOf cfg = some m ∧ f.regulations = some [complianceTagOf m] := by
  unfold scanSpec at hf
  rw [List.mem_flatMap] at hf
  obtain ⟨pp, _, hin⟩ := hf
  by_cases hig : shouldIgnorePath pp.1 cfg.ignorePaths = true
  · rw [if_pos hig] at hin; simp at hin
  · rw [if_neg hig] at hin
    rw [List.mem_flatMap] at hin
    obtain ⟨mo, _, hin2⟩ := hin
    unfold scanOp at hin2
    rw [List.mem_append] at hin2
    rcases hin2 with hin2 | hprob
    · rw [List.mem_append] at hin2
      rcases hin2 with hauth | hresp
      · by_cases hc : (!hasSecurityB spec mo.2 && !isLikelyPublicB pp.1) = true
        · rw [if_pos hc] at hauth
          rw [List.mem_singleton] at hauth
          subst hauth
          exact Or.inl rfl
        · rw [if_neg hc] at hauth; simp at hauth
      · rw [List.mem_flatMap] at hresp
        obtain ⟨sr, _, hin3⟩ := hresp
        exact scanResponse_regulations hin3
    · unfold probedPart at hprob
      by_cases hp : mo.2.probed = true
      · rw [if_pos hp] at hprob
        exact sens_regulations hprob
      · rw [if_neg hp] at hprob; simp at hprob

theorem mem_upsert {α : Type} {k : String} {v : α} {l : List (String × α)}
    {x : String × α} (h : x ∈ upsert k v l) : x = (k, v) ∨ x ∈ l := by
  induction l with
  | nil =>
      unfold upsert at h
      rw [List.mem_singleton] at h
      exact Or.inl h
  | cons hd tl ih =>
      obtain ⟨k', v'⟩ := hd
      unfold upsert at h
      by_cases hk : k' = k
      · rw [if_pos hk] at h
        rcases List.mem_cons.mp h with h1 | h1
        · exact Or.inl h1
        · exact Or.inr (List.mem_cons_of_mem _ h1)
      · rw [if_neg hk] at h
        rcases List.mem_cons.mp h with h1 | h1
        · exact Or.inr (h1 ▸ List.mem_cons_self _ _)
        · rcases ih h1 with h2 | h2
          · exact Or.inl h2
          · exact Or.inr (List.mem_cons_of_mem _ h2)

theorem lookupL_mem {α : Type} {k : String} {l : List (String × α)} {v : α}
    (h : lookupL k l = some v) : (k, v) ∈ l := by
  induction l with
  | nil => simp [lookupL] at h
  | cons hd tl ih =>
      obtain ⟨k', v'⟩ := hd
      unfold lookupL at h
      by_cases hk : k' = k
      · rw [if_pos hk] at h
        injection h with h
        subst h; subst hk
        exact List.mem_cons_self _ _
      · rw [if_neg hk] at h
        exact List.mem_cons_of_mem _ (ih h)

/-- The security shape every operation of the collection, traffic-capture
and live-probe adapters carries: a defined array, a one-element tag list
or empty. -/
def adapterSecurityShape (tag : String) (op : Operation) : Prop :=
  op.security = some [tag] ∨ op.security = some []

/-- The shape holds for every operation of a paths table. -/
def pathsSecurityShape (tag : String)
    (paths : List (String × List (String × Operation))) : Prop :=
  ∀ pp ∈ paths, ∀ mo ∈ pp.2, adapterSecurityShape tag mo.2

theorem pathsSecurityShape_upsert {tag path method : String} {op : Operation}
    {acc : List (String × List (String × Operation))}
    (hacc : pathsSecurityShape tag acc) (hop : adapterSecurityShape tag op) :
    pathsSecurityShape tag
      (upsert path (upsert method op ((lookupL path acc).getD [])) acc) := by
  intro pp hpp mo hmo
  rcases mem_upsert hpp with hpp1 | hpp1
  · subst hpp1
    rcases mem_upsert hmo with hmo1 | hmo1
    · subst hmo1; exact hop
    · cases hpo : lookupL path acc with
      | none => rw [hpo] at hmo1; simp at hmo1
      | some po =>
          rw [hpo] at hmo1
          exact hacc (path, po) (lookupL_mem hpo) mo hmo1
  · exact hacc pp hpp1 mo hmo

theorem harEntryStep_inv {acc acc2 : List (String × List (String × Operation))}
    {entry : HarEntry} (hstep : harEntryStep acc entry = Except.ok acc2)
    (hacc : pathsSecurityShape "har-auth" acc) :
    pathsSecurityShape "har-auth" acc2 := by
  unfold harEntryStep at hstep
  cases hreq : entry.request with
  | none => rw [hreq] at hstep; injection hstep with h; subst h; exact hacc
  | some request =>
      cases hres : entry.response with
      | none => rw [hreq, hres] at hstep; injection hstep with h; subst h; exact hacc
      | some response =>
          rw [hreq, hres] at hstep
          dsimp only at hstep
          cases hurl : request.url with
          | none => rw [hurl] at hstep; cases hstep
          | some url =>
              rw [hurl] at hstep
              dsimp only at hstep
              by_cases hh : startsWithB url "http" = true
              · rw [hh] at hstep
                simp only [Bool.not_true, Bool.false_eq_true, if_false] at hstep
                cases hm : request.method with
                | none => rw [hm] at hstep; cases hstep
                | some m =>
                    rw [hm] at hstep
                    dsimp only at hstep
                    injection hstep with h
                    subst h
                    apply pathsSecurityShape_upsert hacc
                    by_cases hauth : (match request.headers with
                      | some hs => hs.any (fun h =>
                          strLower h.name = "authorization" ||
                          strLower h.name = "x-api-key")
                      | none => false) = true
                    · rw [hauth]
                      exact Or.inl rfl
                    · rw [Bool.eq_false_iff.mpr (fun h => hauth h)]
                      exact Or.inr rfl
              · rw [Bool.eq_false_iff.mpr (fun h => hh h)] at hstep
                simp only [Bool.not_false, if_true] at hstep
                injection hstep with h
                subst h
                exact hacc

theorem harEntriesFold_inv (entries : List HarEntry) :
    ∀ acc acc2, harEntriesFold entries acc = Except.ok acc2 →
      pathsSecurityShape "har-auth" acc → pathsSecurityShape "har-auth" acc2 := by
  induction entries with
  | nil =>
      intro acc acc2 hfold hacc
      unfold harEntriesFold at hfold
      injection hfold with h
      subst h; exact hacc
  | cons e rest ih =>
      intro acc acc2 hfold hacc
      unfold harEntriesFold at hfold
      cases hstep : harEntryStep acc e with
      | error msg => rw [hstep] at hfold; cases hfold
      | ok accMid =>
          rw [hstep] at hfold
          exact ih accMid acc2 hfold (harEntryStep_inv hstep hacc)

theorem normalizeHAR_security_shape (harData : HarData) (spec : NormalizedSpec)
    (hok : normalizeHAR harData = Except.ok spec) :
    pathsSecurityShape "har-auth" spec.paths := by
  unfold normalizeHAR at hok
  dsimp only at hok
  cases hfold : harEntriesFold (match harData.log with
      | some log => log.entries.getD []
      | none => []) [] with
  | error msg => rw [hfold] at hok; simp [Except.map] at hok
  | ok paths =>
      rw [hfold] at hok
      have hspec : spec = { paths := paths, security := none } := by
        simp only [Except.map] at hok
        injection hok with h
        exact h.symm
      subst hspec
      exact harEntriesFold_inv _ [] paths hfold (fun pp hpp => by simp at hpp)

mutual
theorem pmItems_inv : ∀ (items : List PostmanItem)
    (acc : List (String × List (String × Operation))),
    pathsSecurityShape "postman-auth" acc →
    pathsSecurityShape "postman-auth" (pmItems acc items)
  | [], _, hacc => hacc
  | i :: rest, acc, hacc =>
      pmItems_inv rest (pmItem acc i) (pmItem_inv i acc hacc)

theorem pmItem_inv : ∀ (i : PostmanItem)
    (acc : List (String × List (String × Operation))),
    pathsSecurityShape "postman-auth" acc →
    pathsSecurityShape "postman-auth" (pmItem acc i)
  | PostmanItem.node (some children) _, acc, hacc =>
      pmItems_inv children acc hacc
  | PostmanItem.node none (some req), acc, hacc =>
      pathsSecurityShape_upsert hacc (by
        unfold adapterSecurityShape
        by_cases hauth : pmHasAuth req = true
        · exact Or.inl (by simp [hauth])
        · exact Or.inr (by simp [Bool.eq_false_iff.mpr (fun h => hauth h)]))
  | PostmanItem.node none none, _, hacc => hacc
end

theorem normalizePostman_security_shape (collection : PostmanCollection) :
    pathsSecurityShape "postman-auth" (normalizePostman collection).paths := by
  unfold normalizePostman
  cases collection.item with
  | none => intro pp hpp; simp at hpp
  | some items =>
      exact pmItems_inv items [] (fun pp hpp => by simp at hpp)

theorem probeStep_inv {acc acc2 : List (String × List (String × Operation))}
    {result : ProbeResult} (hstep : probeStep acc result = Except.ok acc2)
    (hacc : pathsSecurityShape "probed-auth" acc) :
    pathsSecurityShape "probed-auth" acc2 := by
  unfold probeStep at hstep
  by_cases hs : 200 ≤ result.status ∧ result.status < 300
  · rw [if_pos hs] at hstep
    cases hschema : probeSchemaFor result with
    | error msg => rw [hschema] at hstep; cases hstep
    | ok schemaOpt =>
        rw [hschema] at hstep
        dsimp only at hstep
        injection hstep with h
        subst h
        apply pathsSecurityShape_upsert hacc
        unfold adapterSecurityShape
        by_cases hauth : result.authDetected = true
        · exact Or.inl (by simp [hauth])
        · exact Or.inr (by simp [Bool.eq_false_iff.mpr (fun h => hauth h)])
  · rw [if_neg hs] at hstep
    injection hstep with h
    subst h
    exact hacc

theorem probeResultsFold_inv (results : List ProbeResult) :
    ∀ acc acc2, probeResultsFold results acc = Except.ok acc2 →
      pathsSecurityShape "probed-auth" acc → pathsSecurityShape "probed-auth" acc2 := by
  induction results with
  | nil =>
      intro acc acc2 hfold hacc
      unfold probeResultsFold at hfold
      injection hfold with h
      subst h; exact hacc
  | cons r rest ih =>
      intro acc acc2 hfold hacc
      unfold probeResultsFold at hfold
      cases hstep : probeStep acc r with
      | error msg => rw [hstep] at hfold; cases hfold
      | ok accMid =>
          rw [hstep] at hfold
          exact ih accMid acc2 hfold (probeStep_inv hstep hacc)

theorem normalizeProbedResults_security_shape (probedData : List ProbeResult)
    (spec : NormalizedSpec)
    (hok : normalizeProbedResults probedData = Except.ok spec) :
    pathsSecurityShape "probed-auth" spec.paths := by
  unfold normalizeProbedResults at hok
  cases hfold : probeResultsFold probedData [] with
  | error msg => rw [hfold] at hok; simp [Except.map] at hok
  | ok paths =>
      rw [hfold] at hok
      have hspec : spec = { paths := paths, security := none } := by
        simp only [Except.map] at hok
        injection hok with h
        exact h.symm
      subst hspec
      exact probeResultsFold_inv _ [] paths hfold (fun pp hpp => by simp at hpp)

theorem gmatch_lit_run (cs : List Char) (ps : List GAtom) (s : List Char) :
    gmatch (cs.map GAtom.lit ++ ps) (cs ++ s) = gmatch ps s := by
  induction cs with
  | nil => rfl
  | cons c tl ih => simp [gmatch, ih]

theorem gmatch_star_only (s : List Char)
    (hs : ∀ c ∈ s, isLineTerm c = false) : gmatch [GAtom.star] s = true := by
  induction s with
  | nil => rfl
  | cons c tl ih =>
      have hc : isLineTerm c = false := hs c (List.mem_cons_self _ _)
      have ih2 := ih (fun x hx => hs x (List.mem_cons_of_mem _ hx))
      simp [gmatch, starSuffixes, hc] at ih2 ⊢
      exact ih2

theorem string_toList_append (a b : String) :
    (a ++ b).toList = a.toList ++ b.toList := by
  obtain ⟨ad⟩ := a
  obtain ⟨bd⟩ := b
  rfl

theorem internal_glob_matches (s : String)
    (hs : ∀ c ∈ s.toList, isLineTerm c = false) :
    shouldIgnorePath ("/internal/" ++ s) ["/internal/*"] = true := by
  unfold shouldIgnorePath
  rw [List.any_eq_true]
  refine ⟨"/internal/*", List.mem_singleton_self _, ?_⟩
  rw [if_pos (by decide)]
  rw [string_toList_append]
  have h2 : globAtoms "/internal/*" =
      ("/internal/".toList.map GAtom.lit) ++ [GAtom.star] := by decide
  rw [h2, show ("/internal/" : String).toList = "/internal/".toList from rfl]
  rw [gmatch_lit_run]
  exact gmatch_star_only s.toList hs

theorem prefixAt_iff (needle hay : List Char) :
    prefixAt needle hay = true ↔ ∃ t, hay = needle ++ t := by
  induction needle generalizing hay with
  | nil =>
      simp [prefixAt, List.isPrefixOf]
  | cons n ns ih =>
      cases hay with
      | nil =>
          simp [prefixAt, List.isPrefixOf]
      | cons c cs =>
          simp only [prefixAt, List.isPrefixOf, Bool.and_eq_true, beq_iff_eq]
          constructor
          · rintro ⟨rfl, hpre⟩
            obtain ⟨t, rfl⟩ := (ih cs).mp hpre
            exact ⟨t, rfl⟩
          · rintro ⟨t, ht⟩
            injection ht with h1 h2
            exact ⟨h1.symm, (ih cs).mpr ⟨t, h2⟩⟩

theorem listContains_iff (needle hay : List Char) :
    listContains needle hay = true ↔ ∃ pre post, hay = pre ++ needle ++ post := by
  induction hay with
  | nil =>
      simp only [listContains, List.isEmpty_iff]
      constructor
      · rintro rfl; exact ⟨[], [], rfl⟩
      · rintro ⟨pre, post, h⟩
        exact (List.append_eq_nil.mp (List.append_eq_nil.mp h.symm).1).2
  | cons c cs ih =>
      simp only [listContains, Bool.or_eq_true, prefixAt_iff, ih]
      constructor
      · rintro (⟨t, ht⟩ | ⟨pre, post, hcs⟩)
        · exact ⟨[], t, by simpa using ht⟩
        · exact ⟨c :: pre, post, by simp [hcs]⟩
      · rintro ⟨pre, post, h⟩
        cases pre with
        | nil => exact Or.inl ⟨post, by simpa using h⟩
        | cons p ps =>
            injection h with h1 h2
            exact Or.inr ⟨ps, post, h2⟩

theorem scanOp_security_congr (spec1 spec2 : NormalizedSpec)
    (h : spec1.security = spec2.security) (cfg : Config) (p m : String)
    (op : Operation) : scanOp spec1 cfg p m op = scanOp spec2 cfg p m op := by
  unfold scanOp hasSecurityB
  rw [h]

theorem scanSpec_drop_ignored (spec : NormalizedSpec) (cfg : Config)
    (p : String) (po : List (String × Operation))
    (paths1 paths2 : List (String × List (String × Operation)))
    (hig : shouldIgnorePath p cfg.ignorePaths = true)
    (hpaths : spec.paths = paths1 ++ (p, po) :: paths2) :
    scanSpec spec cfg =
      scanSpec { paths := paths1 ++ paths2, security := spec.security } cfg := by
  unfold scanSpec
  rw [hpaths]
  rw [List.flatMap_append, List.flatMap_cons]
  dsimp only
  rw [if_pos hig]
  rw [List.nil_append]
  rw [List.flatMap_append]
  have hcongr : ∀ paths : List (String × List (String × Operation)),
      paths.flatMap (fun pp =>
        if shouldIgnorePath pp.1 cfg.ignorePaths = true then []
        else pp.2.flatMap (fun mo => scanOp spec cfg pp.1 mo.1 mo.2)) =
      paths.flatMap (fun pp =>
        if shouldIgnorePath pp.1 cfg.ignorePaths = true then []
        else pp.2.flatMap (fun mo =>
          scanOp { paths := paths1 ++ paths2, security := spec.security }
            cfg pp.1 mo.1 mo.2)) := by
    intro paths
    refine flatMap_congrF paths (fun pp => ?_)
    by_cases hig2 : shouldIgnorePath pp.1 cfg.ignorePaths = true
    · rw [if_pos hig2, if_pos hig2]
    · rw [if_neg hig2, if_neg hig2]
      exact flatMap_congrF pp.2 (fun mo =>
        scanOp_security_congr spec _ rfl cfg pp.1 mo.1 mo.2)
  rw [hcongr paths1, hcongr paths2]

/-- Whether the normalized spec has an operation at a (path, method) pair. -/
def hasOperation (spec : NormalizedSpec) (p m : String) : Bool :=
  match lookupL p spec.paths with
  | some po => (lookupL m po).isSome
  | none => false

theorem lookupL_map {α β : Type} (g : α → β) (p : String)
    (l : List (String × α)) :
    lookupL p (l.map (fun pm => (pm.1, g pm.2))) = (lookupL p l).map g := by
  induction l with
  | nil => rfl
  | cons hd tl ih =>
      obtain ⟨k, v⟩ := hd
      unfold lookupL
      by_cases hk : k = p
      · simp [hk]
      · simpa [hk] using ih

theorem lookupL_upsert_isSome {α : Type} (k m : String) (v : α)
    (l : List (String × α)) :
    (lookupL m (upsert k v l)).isSome =
      (if k = m then true else (lookupL m l).isSome) := by
  induction l with
  | nil =>
      show (lookupL m [(k, v)]).isSome = _
      by_cases hk : k = m <;> simp [lookupL, hk]
  | cons hd tl ih =>
      obtain ⟨k', v'⟩ := hd
      unfold upsert
      by_cases hk' : k' = k
      · subst hk'
        rw [if_pos rfl]
        by_cases hm : k' = m <;> simp [lookupL, hm]
      · rw [if_neg hk']
        by_cases hm : k' = m
        · subst hm
          have hk : ¬ k = k' := fun h => hk' h.symm
          simp [lookupL, hk]
        · simp [lookupL, hm, ih]

theorem convertMethods_go (globalSec : List String)
    (methods : List (String × Operation))
    (acc : List (String × Operation)) (m : String) :
    (lookupL m (methods.foldl
      (fun acc mo =>
        if SKIP_KEYS.contains mo.1 then acc
        else upsert (strLower mo.1)
          { mo.2 with security := some (mo.2.security.getD globalSec) } acc)
      acc)).isSome =
    ((lookupL m acc).isSome ||
      methods.any (fun mo => !SKIP_KEYS.contains mo.1 && (strLower mo.1 == m))) := by
  induction methods generalizing acc with
  | nil => simp
  | cons mo rest ih =>
      rw [List.foldl_cons, List.any_cons]
      by_cases hskip : SKIP_KEYS.contains mo.1 = true
      · rw [if_pos hskip, ih]
        have hpred : (!SKIP_KEYS.contains mo.1 && (strLower mo.1 == m)) = false := by
          rw [hskip]; rfl
        rw [hpred, Bool.false_or]
      · have hskip2 : SKIP_KEYS.contains mo.1 = false :=
          Bool.eq_false_iff.mpr (fun h => hskip h)
        rw [if_neg hskip, ih, lookupL_upsert_isSome]
        have hnot : (!SKIP_KEYS.contains mo.1) = true := by rw [hskip2]; rfl
        rw [hnot, Bool.true_and]
        by_cases hm : strLower mo.1 = m
        · have hbeq : (strLower mo.1 == m) = true := by simp [hm]
          rw [if_pos hm, hbeq, Bool.true_or]
          simp
        · have hbeq : (strLower mo.1 == m) = false := by simp [hm]
          rw [if_neg hm, hbeq, Bool.false_or]

theorem normalizeSpec_swagger2_ops (raw : RawSpec) (h2 : isSwagger2 raw = true)
    (p m : String) :
    hasOperation (normalizeSpec raw) p m = true ↔
      ∃ methods, lookupL p raw.paths = some methods ∧
        ∃ k op, (k, op) ∈ methods ∧ SKIP_KEYS.contains k = false ∧
          strLower k = m := by
  unfold hasOperation normalizeSpec
  rw [if_pos h2]
  dsimp only
  rw [lookupL_map]
  cases hl : lookupL p raw.paths with
  | none => simp
  | some methods =>
      rw [Option.map_some']
      dsimp only
      unfold convertMethods
      rw [convertMethods_go]
      have hnil : (lookupL m ([] : List (String × Operation))).isSome = false := rfl
      rw [hnil, Bool.false_or]
      rw [List.any_eq_true]
      constructor
      · rintro ⟨mo, hmo, hpred⟩
        rw [Bool.and_eq_true] at hpred
        refine ⟨methods, rfl, mo.1, mo.2, hmo, ?_, ?_⟩
        · simpa using hpred.1
        · simpa using hpred.2
      · rintro ⟨methods2, hmeq, k, op, hmem, hskip, hlo⟩
        injection hmeq with hmeq
        subst hmeq
        have hk : k ∉ SKIP_KEYS := by simpa using hskip
        exact ⟨(k, op), hmem, by simp [hk, hlo]⟩

/-- The default configuration value of `scanSpec`. -/
def cfgDefault : Config := {}

/-- C1 input: an operation with an explicitly defined empty security list
under a spec whose global security is non-empty. -/
def c1op : Operation := { security := some [] }

/-- C1 input spec. -/
def c1spec : NormalizedSpec :=
  { paths := [("/users", [("get", c1op)])], security := some ["ApiKeyAuth"] }

/-- C2 input: the 200-response schema with properties id, username,
password. -/
def c2schema : Json :=
  Json.obj [("type", Json.str "object"),
    ("properties", Json.obj [
      ("id", Json.obj [("type", Json.str "integer")]),
      ("username", Json.obj [("type", Json.str "string")]),
      ("password", Json.obj [("type", Json.str "string")])])]

/-- C2 input spec: one GET operation, no security anywhere. -/
def c2spec : NormalizedSpec :=
  { paths := [("/users/{id}", [("get",
      { security := none,
        responses := [("200",
          { contentJson := some { schema := some c2schema } })] })])],
    security := none }

/-- C5 input: the recorded traffic-capture entry. -/
def c5entry : HarEntry :=
  { request := some
      { url := some "https://x/api/items",
        method := some "GET",
        headers := some [{ name := "Authorization", value := "Bearer z" }] },
    response := some
      { status := some 200,
        content := some
          { mimeType := some "application/json",
            text := some
              (BodyText.jsonText (Json.obj [("token", Json.str "abc")])) } } }

/-- C5 input document. -/
def c5har : HarData := { log := some { entries := some [c5entry] } }

/-- The schema the traffic-capture adapter infers for the C5 body. -/
def c5schema : Json :=
  Json.obj [("type", Json.str "object"),
    ("properties", Json.obj [("token", Json.obj [("type", Json.str "string")])])]

/-- The adapted C5 operation. -/
def c5op : Operation :=
  { security := some ["har-auth"],
    responses := [("200", { schema := some c5schema })] }

/-- The adapted C5 spec. -/
def c5spec : NormalizedSpec :=
  { paths := [("/api/items", [("get", c5op)])], security := none }

/-- C6 input: a Swagger 2.0 document whose operation key is upper-case. -/
def c6raw : RawSpec :=
  { swagger := some "2.0",
    paths := [("/x", [("GET", ({} : Operation))])],
    security := none }

/-- C8 failing input: an entry with request and response records but no
request URL. -/
def c8entry : HarEntry :=
  { request := some { method := some "GET", headers := some [] },
    response := some { status := some 200 } }

/-- C8 failing document. -/
def c8har : HarData := { log := some { entries := some [c8entry] } }

/-- Witness spec for C4/C10: one authenticated GET whose 200 response
schema exposes an `email` field. -/
def w4schema : Json := Json.obj [("email", Json.str "string")]

/-- Witness spec for C4/C10. -/
def w4spec : NormalizedSpec :=
  { paths := [("/d", [("get",
      { security := some ["x"],
        responses := [("200", { schema := some w4schema })] })])],
    security := none }

/-- Witness schema for C3: 21 direct properties. -/
def w3props : List (String × Json) :=
  (List.range 21).map (fun i => ("f" ++ toString i, Json.str "string"))

/-- Witness schema for C3. -/
def w3schema : Json := Json.obj [("properties", Json.obj w3props)]

/-- Witness spec for C7's ignore-pattern conjunct. -/
def w7spec : NormalizedSpec :=
  { paths := [("/internal/secret", [("get", ({} : Operation))])],
    security := none }

/-- Witness configuration for C7. -/
def w7cfg : Config := { ignorePaths := ["/internal/*"] }

/-- C1 counterexample: an operation whose own `security` is a defined
empty list, under a non-empty global security, on a path that is neither
ignored nor likely-public. The claim requires a "Missing authentication"
finding here (effective security is the defined empty list); `scanSpec`
emits none, because its check also accepts the global security. -/
theorem c1_counterexample :
    c1op.security = some [] ∧
    shouldIgnorePath "/users" cfgDefault.ignorePaths = false ∧
    isLikelyPublicB "/users" = false ∧
    missingAuthScan c1spec cfgDefault = [] ∧
    scanSpec c1spec cfgDefault = [] := by
  decide

/-- C1 (amended): for every spec and config, `scanSpec` emits a
"Missing authentication" finding for exactly the non-ignored,
non-likely-public operations for which neither the operation's own
`security` nor the spec's global security is a non-empty list — a defined
empty operation-level list is overridden by a non-empty global list. -/
theorem c1_missing_auth_rule (spec : NormalizedSpec) (cfg : Config) :
    missingAuthScan spec cfg = missingAuthRule spec cfg :=
  missingAuth_characterize spec cfg

/-- C2: on the one-path GET spec with the {id, username, password}
response schema and no security, the default scan returns exactly two
findings, in order "Missing authentication" then "Sensitive data exposed
in response", the latter's detail naming `password`. -/
theorem c2_users_scenario :
    scanSpec c2spec cfgDefault =
      [mkMissingAuthFinding "GET /users/{id}",
       mkSensitiveFinding "GET /users/{id}"
         ["properties.username", "properties.password"] true] ∧
    (scanSpec c2spec cfgDefault).length = 2 ∧
    (scanSpec c2spec cfgDefault).map Finding.message =
      ["Missing authentication", "Sensitive data exposed in response"] ∧
    jsIncludes (mkSensitiveFinding "GET /users/{id}"
      ["properties.username", "properties.password"] true).detail
      "password" = true := by
  decide

/-- C3: the excessive-data findings of any scan are exactly one
medium-severity finding per 2xx response (of a non-ignored operation)
whose schema carries a truthy `properties` value with more than 20 keys —
a rule independent of the compliance mode and the custom fields, since
the right-hand side depends on the config only through `ignorePaths`; on
a `properties` mapping the check fires exactly when the mapping has more
than 20 entries, and never without a `properties` value. -/
theorem c3_excessive_rule :
    (∀ spec cfg, excessiveScan spec cfg = excessiveRule spec cfg.ignorePaths) ∧
    (∀ opId schema kvs, jsGet "properties" schema = some (Json.obj kvs) →
      excessivePart opId schema =
        (if kvs.length > 20 then [mkExcessiveFinding opId kvs.length] else [])) ∧
    (∀ opId schema, jsGet "properties" schema = none →
      excessivePart opId schema = []) := by
  refine ⟨excessive_characterize, ?_, ?_⟩
  · intro opId schema kvs h
    unfold excessivePart
    rw [h]
    simp [jsTruthy, jsKeyCount]
  · intro opId schema h
    unfold excessivePart
    rw [h]

/-- Witness for C3 at a concrete 21-property schema. -/
theorem c3_excessive_rule_witness :
    excessivePart "GET /w" w3schema = [mkExcessiveFinding "GET /w" 21] := by
  have h := c3_excessive_rule.2.1 "GET /w" w3schema w3props rfl
  rw [h]
  decide

/-- C4: every field reported by a gdpr-mode scan is also reported by the
standard-mode scan of the same spec (all other configuration equal), and
carries "GDPR" in its resolved regulation set. -/
theorem c4_gdpr_subset (spec : NormalizedSpec) (cfg : Config) (f : String)
    (hf : f ∈ scanReportedFields spec { cfg with compliance := some "gdpr" }) :
    f ∈ scanReportedFields spec { cfg with compliance := none } ∧
      "GDPR" ∈ getRegulatoryContext (lastSeg f) :=
  scanReportedFields_gdpr_mem spec cfg f hf

/-- Witness for C4 at a concrete spec exposing `email`. -/
theorem c4_gdpr_subset_witness :
    "email" ∈ scanReportedFields w4spec { ({} : Config) with compliance := some "gdpr" } ∧
    ("email" ∈ scanReportedFields w4spec { ({} : Config) with compliance := none } ∧
      "GDPR" ∈ getRegulatoryContext (lastSeg "email")) :=
  ⟨by decide, c4_gdpr_subset w4spec {} "email" (by decide)⟩

/-- C5: the traffic-capture entry for `GET https://x/api/items` with an
Authorization header and body `{"token": "abc"}` adapts to an operation
with non-empty security and a schema exposing `token`, and scanning the
adapted spec yields exactly one sensitive-data finding and no
missing-authentication finding. -/
theorem c5_har_scenario :
    normalizeHAR c5har = Except.ok c5spec ∧
    nonemptyArr c5op.security = true ∧
    (match jsGet "properties" c5schema with
     | some props => (jsGet "token" props).isSome
     | none => false) = true ∧
    scanSpec c5spec cfgDefault =
      [mkSensitiveFinding "GET /api/items" ["properties.token"] true] ∧
    missingAuthScan c5spec cfgDefault = [] :=
  ⟨rfl, by decide⟩

/-- C6 counterexample: a Swagger 2.0 document with operation key "GET".
The source pair ("/x", "GET") is an operation key outside the skip list,
but the converted output has no operation at ("/x", "GET") — only at the
lowercased ("/x", "get") — so the two (path, method) sets differ. -/
theorem c6_counterexample :
    isSwagger2 c6raw = true ∧
    SKIP_KEYS.contains "GET" = false ∧
    (match lookupL "/x" c6raw.paths with
     | some methods => (lookupL "GET" methods).isSome
     | none => false) = true ∧
    hasOperation (normalizeSpec c6raw) "/x" "GET" = false ∧
    hasOperation (normalizeSpec c6raw) "/x" "get" = true := by
  decide

/-- C6 (amended): for a Swagger 2.0 document, the converted spec has an
operation at (p, m) exactly when the source path item at p has an entry
whose key k is outside the fixed skip list and lowercases to m. -/
theorem c6_swagger2_pairs (raw : RawSpec) (h2 : isSwagger2 raw = true)
    (p m : String) :
    hasOperation (normalizeSpec raw) p m = true ↔
      ∃ methods, lookupL p raw.paths = some methods ∧
        ∃ k op, (k, op) ∈ methods ∧ SKIP_KEYS.contains k = false ∧
          strLower k = m :=
  normalizeSpec_swagger2_ops raw h2 p m

/-- Witness for C6 at the concrete upper-case-key document. -/
theorem c6_swagger2_pairs_witness :
    hasOperation (normalizeSpec c6raw) "/x" "get" = true :=
  (c6_swagger2_pairs c6raw (by decide) "/x" "get").mpr
    ⟨[("GET", ({} : Operation))], rfl, "GET", {},
      List.mem_cons_self _ _, by decide, by decide⟩

/-- C7: the wildcard pattern `/internal/*` suppresses every finding of a
path `/internal/<trailer>` (dropping such a path from the spec leaves the
scan output unchanged) but does not match `/internal` itself, and a
pattern without `*` matches exactly the paths containing it as a
substring. -/
theorem c7_ignore_patterns :
    (∀ (s : String), (∀ c ∈ s.toList, isLineTerm c = false) →
      ∀ (spec : NormalizedSpec) (cfg : Config)
        (po : List (String × Operation))
        (paths1 paths2 : List (String × List (String × Operation))),
        cfg.ignorePaths = ["/internal/*"] →
        spec.paths = paths1 ++ ("/internal/" ++ s, po) :: paths2 →
        scanSpec spec cfg =
          scanSpec { paths := paths1 ++ paths2, security := spec.security } cfg) ∧
    shouldIgnorePath "/internal" ["/internal/*"] = false ∧
    (∀ (p pat : String), pat.toList.contains '*' = false →
      (shouldIgnorePath p [pat] = true ↔
        ∃ pre post, p.toList = pre ++ pat.toList ++ post)) := by
  refine ⟨?_, by decide, ?_⟩
  · intro s hs spec cfg po paths1 paths2 hcfg hpaths
    apply scanSpec_drop_ignored spec cfg _ po paths1 paths2 ?_ hpaths
    rw [hcfg]
    exact internal_glob_matches s hs
  · intro p pat hstar
    simp only [shouldIgnorePath, List.any_cons, List.any_nil, Bool.or_false]
    rw [hstar]
    simp only [Bool.false_eq_true, if_false]
    exact listContains_iff pat.toList p.toList

/-- Witness for C7 at a concrete spec and patterns. -/
theorem c7_ignore_patterns_witness :
    scanSpec w7spec w7cfg = [] ∧
    (shouldIgnorePath "/api/health" ["/health"] = true ↔
      ∃ pre post,
        ("/api/health" : String).toList =
          pre ++ ("/health" : String).toList ++ post) := by
  constructor
  · have h := c7_ignore_patterns.1 "secret" (by decide) w7spec w7cfg
      [("get", ({} : Operation))] [] [] rfl rfl
    rw [h]
    rfl
  · exact c7_ignore_patterns.2.2 "/api/health" "/health" (by decide)

/-- C8: the adapters default missing sections to empty collections, but
the traffic-capture adapter is not total — an entry carrying request and
response records without a request URL makes it throw (a TypeError when
reading `url.startsWith`), violating the stated must-not-throw contract. -/
theorem c8_har_url_throws :
    normalizeHAR { log := none } = Except.ok { paths := [], security := none } ∧
    normalizePostman { item := none } = { paths := [], security := some [] } ∧
    normalizeHAR c8har = Except.error "TypeError: request.url is undefined" :=
  ⟨rfl, rfl, rfl⟩

/-- C9: every operation produced by the traffic-capture, collection and
live-probe adapters carries a defined `security` array, a one-element
adapter tag when authentication was detected and the empty list
otherwise — so the global-inheritance rule never applies to them. -/
theorem c9_adapter_security_defined :
    (∀ harData spec, normalizeHAR harData = Except.ok spec →
      ∀ pp ∈ spec.paths, ∀ mo ∈ pp.2,
        mo.2.security = some ["har-auth"] ∨ mo.2.security = some []) ∧
    (∀ collection, ∀ pp ∈ (normalizePostman collection).paths, ∀ mo ∈ pp.2,
        mo.2.security = some ["postman-auth"] ∨ mo.2.security = some []) ∧
    (∀ probedData spec, normalizeProbedResults probedData = Except.ok spec →
      ∀ pp ∈ spec.paths, ∀ mo ∈ pp.2,
        mo.2.security = some ["probed-auth"] ∨ mo.2.security = some []) :=
  ⟨fun harData spec hok => normalizeHAR_security_shape harData spec hok,
   fun collection => normalizePostman_security_shape collection,
   fun probedData spec hok =>
     normalizeProbedResults_security_shape probedData spec hok⟩

/-- Witness for C9 at the concrete captured entry. -/
theorem c9_adapter_security_defined_witness :
    c5op.security = some ["har-auth"] ∨ c5op.security = some [] :=
  c9_adapter_security_defined.1 c5har c5spec rfl
    ("/api/items", [("get", c5op)]) (List.mem_cons_self _ _)
    ("get", c5op) (List.mem_cons_self _ _)

/-- C10: with a compliance mode set, every finding that carries a
`regulations` field carries exactly the single tag of that mode. -/
theorem c10_compliance_single_tag (spec : NormalizedSpec) (cfg : Config)
    (mode : String) (hmode : cfg.compliance = some mode)
    (h4 : mode = "gdpr" ∨ mode = "ccpa" ∨ mode = "hipaa" ∨ mode = "pci") :
    ∀ f ∈ scanSpec spec cfg, ∀ regs, f.regulations = some regs →
      regs = [complianceTagOf mode] := by
  intro f hf regs hregs
  rcases scanSpec_regulations spec cfg f hf with hn | ⟨m, hm, hr⟩
  · rw [hn] at hregs; cases hregs
  · have hne : mode ≠ "" := by
      rcases h4 with rfl | rfl | rfl | rfl <;> decide
    have hcm : complianceModeOf cfg = some mode := by
      unfold complianceModeOf
      rw [hmode]
      dsimp only
      rw [if_neg hne]
    rw [hcm] at hm
    injection hm with hm
    subst hm
    rw [hr] at hregs
    injection hregs with h
    exact h.symm

/-- Witness for C10 at a concrete gdpr-mode scan. -/
theorem c10_compliance_single_tag_witness :
    scanSpec w4spec { compliance := some "gdpr" } =
      [mkComplianceFinding "gdpr" "GET /d" ["email"] true] ∧
    (mkComplianceFinding "gdpr" "GET /d" ["email"] true).regulations =
      some ["GDPR"] ∧
    ["GDPR"] = [complianceTagOf "gdpr"] :=
  ⟨by decide, rfl,
    c10_compliance_single_tag w4spec { compliance := some "gdpr" } "gdpr"
      rfl (Or.inl rfl)
      (mkComplianceFinding "gdpr" "GET /d" ["email"] true)
      (by decide) ["GDPR"] rfl⟩
